import Mathlib

/-!
# Verification of the strong-manager reverse proxy (shallow embedding)

This file embeds the request-handling data plane of the `strong-manager`
repository in Lean 4 and proves (or refutes) the specified properties about
it.  The embedding follows the Go source:

* `middleware` rate limiter (`RateLimiterMiddleware` and its state),
* `filter` request-filter engine (`FilterRequest`, the pattern matchers),
* `proxy` package (`refreshCache`, `selectBackend`, `proxyHandler`),
* `database` buffered log sink (`writeToDatabase` retry loop),
* `main.go` log-retention sweeper (`pruneOldLogs`).

Modelling conventions:

* Go `map[K]V` values are modelled as total functions `K → Option V`
  (`K → Int` for counter maps whose missing keys read as `0`, matching Go's
  zero-value semantics).  In-place pointer mutation becomes a returned
  updated map.
* `time.Time` / `time.Duration` are modelled as `Int` numbers of seconds.
* Go strings are modelled by Lean `String`; Go's byte-wise operations
  coincide with character-wise ones on the ASCII data the proxy handles.
* `float64` arithmetic in the backend selector is modelled by explicit
  IEEE-754 binary64 round-to-nearest-even on `ℚ` (`roundFloat64`), valid on
  the normal range the selector's values inhabit; hypotheses restrict to
  positive weights, where the float computation is well defined.
* Database side effects are modelled as explicit inputs (query results) and
  outputs (rows written / deleted).
-/

set_option maxHeartbeats 1000000

namespace StrongManager

/-! ## Go standard-library string helpers

`goContains`, `goStartsWith` and `goEndsWith` model `strings.Contains`,
`strings.HasPrefix` and `strings.HasSuffix` over the character data. -/

/-- Models Go `strings.Contains s sub`. -/
def goContains (s sub : String) : Bool := decide (sub.data <:+: s.data)

/-- Models Go `strings.HasPrefix s p` (`s` begins with `p`). -/
def goStartsWith (s p : String) : Bool := decide (p.data <+: s.data)

/-- Models Go `strings.HasSuffix s p` (`s` ends with `p`). -/
def goEndsWith (s p : String) : Bool := decide (p.data <:+ s.data)

/-- Pointwise update of a map modelled as a function (one Go map write). -/
def setAt {β : Type} (f : String → β) (k : String) (v : β) : String → β :=
  fun x => if x = k then v else f x

/-! ## Rate limiter (`middleware` package)

State and decision procedure of `RateLimiterMiddleware`.  A decision for one
request reads the per-host configuration map and the per-IP counter state
and either forwards (`c.Next()`) or rejects with HTTP 429. -/

/-- `DNSRateLimitConfig` (hostname omitted: the map key carries it). -/
structure DNSRateLimitConfig where
  enabled : Bool
  quota : Int
  periodSecs : Int
deriving Repr, DecidableEq

/-- `HostCount`: per-IP, per-host request counter. -/
structure HostCount where
  count : Int
  lastSeen : Int
deriving Repr, DecidableEq

/-- `IPLimit`: per-IP counter with per-host sub-counters. -/
structure IPLimit where
  count : Int
  lastSeen : Int
  hostCounts : String → Option HostCount

/-- The rate limiter's state and defaults (`RateLimiter` struct). -/
structure RateLimiter where
  ipMap : String → Option IPLimit
  dnsConfigMap : String → Option DNSRateLimitConfig
  defaultMaxRequests : Int
  defaultInterval : Int

/-- Outcome of the middleware for one request: pass the request on
(`c.Next()`) or reject it with status 429. -/
inductive RLDecision where
  | next
  | tooMany429
deriving Repr, DecidableEq

/-- The admin-bypass test
`c.Path() != "/" && len(c.Path()) >= 6 && c.Path()[:6] == "/admin"`. -/
def isAdminPath (path : String) : Bool :=
  path != "/" && decide (6 ≤ path.length) && (path.take 6 == "/admin")

/-- Core counter logic of `RateLimiterMiddleware` after the effective
`maxRequests`/`interval` have been resolved: lines 550–612 of the source.
Returns the decision and the updated `ipMap`. -/
def limitCheck (ipMap : String → Option IPLimit) (maxRequests interval : Int)
    (ip hostname : String) (now : Int) : RLDecision × (String → Option IPLimit) :=
  match ipMap ip with
  | none =>
      -- IP not in map: create a fresh limit with this host's count at 1, pass
      let limit : IPLimit :=
        { count := 1, lastSeen := now
          hostCounts := setAt (fun _ => none) hostname (some { count := 1, lastSeen := now }) }
      (.next, setAt ipMap ip (some limit))
  | some limit0 =>
      -- update the global count for this IP
      let limit1 : IPLimit := { limit0 with count := limit0.count + 1, lastSeen := now }
      match limit1.hostCounts hostname with
      | none =>
          -- first request of this IP for this host: count 1, pass
          let limit2 : IPLimit :=
            { limit1 with
                hostCounts := setAt limit1.hostCounts hostname
                  (some { count := 1, lastSeen := now }) }
          (.next, setAt ipMap ip (some limit2))
      | some hc =>
          if now - hc.lastSeen > interval then
            -- new interval: reset the counter, pass
            let limit2 : IPLimit :=
              { limit1 with
                  hostCounts := setAt limit1.hostCounts hostname
                    (some { count := 1, lastSeen := now }) }
            (.next, setAt ipMap ip (some limit2))
          else
            -- increment the host-specific counter and check the limit
            let hc2 : HostCount := { count := hc.count + 1, lastSeen := now }
            let limit2 : IPLimit :=
              { limit1 with hostCounts := setAt limit1.hostCounts hostname (some hc2) }
            if hc2.count > maxRequests then (.tooMany429, setAt ipMap ip (some limit2))
            else (.next, setAt ipMap ip (some limit2))

/-- `RateLimiterMiddleware` decision for one request (source lines 519–612):
admin bypass, per-host configuration resolution, then the counter logic
(`limitCheck`). -/
def rateLimiterMiddleware (rl : RateLimiter) (path ip hostname : String) (now : Int) :
    RLDecision × (String → Option IPLimit) :=
  if isAdminPath path then (.next, rl.ipMap)
  else
    match rl.dnsConfigMap hostname with
    | some config =>
        if config.enabled then
          -- a config exists and rate limiting is enabled: use its values
          limitCheck rl.ipMap config.quota config.periodSecs ip hostname now
        else
          -- config exists but rate limiting is disabled: skip limiting
          (.next, rl.ipMap)
    | none =>
        -- no specific config: use the default values
        limitCheck rl.ipMap rl.defaultMaxRequests rl.defaultInterval ip hostname now

/-! ### Rate limiter theorems -/

/-- C2.  In the rate limiter's decision for a request with client IP `ip` and
host `hostname` whose per-host counter state already exists: if the elapsed
time since the stored window timestamp exceeds the configured period, the
counter is reset to `count = 1` at `now` and the request passes; only
otherwise is the count incremented, and the request is rejected with
status 429 exactly when the incremented count exceeds the quota. -/
theorem rateLimiter_window_decision (rl : RateLimiter) (path ip hostname : String)
    (now : Int) (config : DNSRateLimitConfig) (limit0 : IPLimit) (hc : HostCount)
    (hpath : isAdminPath path = false)
    (hcfg : rl.dnsConfigMap hostname = some config)
    (hen : config.enabled = true)
    (hip : rl.ipMap ip = some limit0)
    (hhc : limit0.hostCounts hostname = some hc) :
    (now - hc.lastSeen > config.periodSecs →
      (rateLimiterMiddleware rl path ip hostname now).1 = RLDecision.next ∧
      ∃ l, (rateLimiterMiddleware rl path ip hostname now).2 ip = some l ∧
        l.hostCounts hostname = some { count := 1, lastSeen := now }) ∧
    (¬ (now - hc.lastSeen > config.periodSecs) →
      (∃ l, (rateLimiterMiddleware rl path ip hostname now).2 ip = some l ∧
        l.hostCounts hostname = some { count := hc.count + 1, lastSeen := now }) ∧
      ((rateLimiterMiddleware rl path ip hostname now).1 = RLDecision.tooMany429 ↔
        hc.count + 1 > config.quota)) := by
  unfold rateLimiterMiddleware limitCheck
  rw [hpath, hcfg, hip]
  simp only [hen, hhc, Bool.false_eq_true, if_false, if_true]
  constructor
  · intro hgt
    simp only [if_pos hgt]
    exact ⟨trivial,
      ⟨{ count := limit0.count + 1, lastSeen := now
         hostCounts := setAt limit0.hostCounts hostname
           (some { count := 1, lastSeen := now }) },
       by simp [setAt], by simp [setAt]⟩⟩
  · intro hle
    simp only [if_neg hle]
    by_cases hq : hc.count + 1 > config.quota
    · simp only [if_pos hq]
      exact ⟨⟨{ count := limit0.count + 1, lastSeen := now
                hostCounts := setAt limit0.hostCounts hostname
                  (some { count := hc.count + 1, lastSeen := now }) },
              by simp [setAt], by simp [setAt]⟩,
             by simpa using hq⟩
    · simp only [if_neg hq]
      exact ⟨⟨{ count := limit0.count + 1, lastSeen := now
                hostCounts := setAt limit0.hostCounts hostname
                  (some { count := hc.count + 1, lastSeen := now }) },
              by simp [setAt], by simp [setAt]⟩,
             by simp only [reduceCtorEq, false_iff]; exact hq⟩

/-- Witness for C2: a concrete decision where the window has not elapsed and
the incremented count exceeds the quota, so the request is rejected. -/
theorem rateLimiter_window_decision_witness :
    let config : DNSRateLimitConfig := { enabled := true, quota := 5, periodSecs := 60 }
    let hc : HostCount := { count := 5, lastSeen := 100 }
    let limit0 : IPLimit := { count := 5, lastSeen := 100, hostCounts := fun _ => some hc }
    let rl : RateLimiter :=
      { ipMap := fun _ => some limit0, dnsConfigMap := fun _ => some config
        defaultMaxRequests := 100, defaultInterval := 60 }
    (110 - hc.lastSeen > config.periodSecs →
      (rateLimiterMiddleware rl "/x" "9.9.9.9" "api.test" 110).1 = RLDecision.next ∧
      ∃ l, (rateLimiterMiddleware rl "/x" "9.9.9.9" "api.test" 110).2 "9.9.9.9" = some l ∧
        l.hostCounts "api.test" = some { count := 1, lastSeen := 110 }) ∧
    (¬ (110 - hc.lastSeen > config.periodSecs) →
      (∃ l, (rateLimiterMiddleware rl "/x" "9.9.9.9" "api.test" 110).2 "9.9.9.9" = some l ∧
        l.hostCounts "api.test" = some { count := hc.count + 1, lastSeen := 110 }) ∧
      ((rateLimiterMiddleware rl "/x" "9.9.9.9" "api.test" 110).1 = RLDecision.tooMany429 ↔
        hc.count + 1 > config.quota)) :=
  rateLimiter_window_decision _ _ _ _ _ _ _ _ (by decide) rfl rfl rfl rfl

/-- C3 counterexample.  A host with **no** rate-limit configuration entry is
not passed through: the limiter applies the default quota (here 100) and
rejects the 101st request in the window with status 429. -/
theorem rateLimiter_no_config_not_passthrough :
    let limit0 : IPLimit :=
      { count := 100, lastSeen := 0, hostCounts := fun _ => some { count := 100, lastSeen := 0 } }
    let rl : RateLimiter :=
      { ipMap := fun _ => some limit0, dnsConfigMap := fun _ => none
        defaultMaxRequests := 100, defaultInterval := 60 }
    rl.dnsConfigMap "nohost.test" = none ∧
    (rateLimiterMiddleware rl "/x" "5.6.7.8" "nohost.test" 0).1 = RLDecision.tooMany429 := by
  constructor
  · rfl
  · rfl

/-- C3 amended.  Only a host whose configuration entry exists with
`enabled = false` is passed through by the rate limiter without any quota
and without touching the counter state; a host with no configuration entry
is instead subjected to the default quota. -/
theorem rateLimiter_disabled_config_passthrough (rl : RateLimiter)
    (path ip hostname : String) (now : Int) (config : DNSRateLimitConfig)
    (hpath : isAdminPath path = false)
    (hcfg : rl.dnsConfigMap hostname = some config)
    (hdis : config.enabled = false) :
    rateLimiterMiddleware rl path ip hostname now = (RLDecision.next, rl.ipMap) := by
  unfold rateLimiterMiddleware
  rw [hpath, hcfg]
  simp [hdis]

/-- Witness for C3 (amended): a disabled configuration entry passes the
request through unchanged. -/
theorem rateLimiter_disabled_config_passthrough_witness :
    let config : DNSRateLimitConfig := { enabled := false, quota := 1, periodSecs := 60 }
    let rl : RateLimiter :=
      { ipMap := fun _ => none, dnsConfigMap := fun _ => some config
        defaultMaxRequests := 100, defaultInterval := 60 }
    rateLimiterMiddleware rl "/y" "1.2.3.4" "off.test" 7 = (RLDecision.next, rl.ipMap) :=
  rateLimiter_disabled_config_passthrough _ _ _ _ _ _ (by decide) rfl rfl

/-- C10.  The first observed request from a client IP (no entry in the IP
map), and likewise the first request of a known IP for a previously unseen
host, passes and initializes the per-host counter to 1 — with no comparison
against the quota, for every configuration (including quota 0). -/
theorem rateLimiter_first_request (rl : RateLimiter) (path ip hostname : String)
    (now : Int)
    (hpath : isAdminPath path = false)
    (hnoskip : ∀ config, rl.dnsConfigMap hostname = some config → config.enabled = true)
    (hfirst : rl.ipMap ip = none ∨
      ∃ limit0, rl.ipMap ip = some limit0 ∧ limit0.hostCounts hostname = none) :
    (rateLimiterMiddleware rl path ip hostname now).1 = RLDecision.next ∧
    ∃ l, (rateLimiterMiddleware rl path ip hostname now).2 ip = some l ∧
      l.hostCounts hostname = some { count := 1, lastSeen := now } := by
  have hcore : ∀ maxRequests interval,
      (limitCheck rl.ipMap maxRequests interval ip hostname now).1 = RLDecision.next ∧
      ∃ l, (limitCheck rl.ipMap maxRequests interval ip hostname now).2 ip = some l ∧
        l.hostCounts hostname = some { count := 1, lastSeen := now } := by
    intro maxRequests interval
    rcases hfirst with hnone | ⟨limit0, hsome, hhost⟩
    · unfold limitCheck
      rw [hnone]
      exact ⟨rfl,
        ⟨{ count := 1, lastSeen := now
           hostCounts := setAt (fun _ => none) hostname
             (some { count := 1, lastSeen := now }) },
         by simp [setAt], by simp [setAt]⟩⟩
    · unfold limitCheck
      rw [hsome]
      simp only [hhost]
      exact ⟨trivial,
        ⟨{ count := limit0.count + 1, lastSeen := now
           hostCounts := setAt limit0.hostCounts hostname
             (some { count := 1, lastSeen := now }) },
         by simp [setAt], by simp [setAt]⟩⟩
  unfold rateLimiterMiddleware
  rw [hpath]
  simp only [Bool.false_eq_true, if_false]
  cases hcfg : rl.dnsConfigMap hostname with
  | none => exact hcore _ _
  | some config =>
      simp only [hnoskip config hcfg, if_true]
      exact hcore _ _

/-- Witness for C10: a fresh IP under an enabled configuration with quota 0
still passes and gets its counter initialized to 1. -/
theorem rateLimiter_first_request_witness :
    let config : DNSRateLimitConfig := { enabled := true, quota := 0, periodSecs := 60 }
    let rl : RateLimiter :=
      { ipMap := fun _ => none, dnsConfigMap := fun _ => some config
        defaultMaxRequests := 100, defaultInterval := 60 }
    (rateLimiterMiddleware rl "/z" "8.8.8.8" "zero.test" 3).1 = RLDecision.next ∧
    ∃ l, (rateLimiterMiddleware rl "/z" "8.8.8.8" "zero.test" 3).2 "8.8.8.8" = some l ∧
      l.hostCounts "zero.test" = some { count := 1, lastSeen := 3 } :=
  rateLimiter_first_request _ _ _ _ _ (by decide)
    (fun config h => by cases h; rfl) (Or.inl rfl)

/-! ## Filter engine (`filter` package)

Pattern matchers (`matchesIP`, `matchesPath`, `matchesDNS`,
`matchesWildcard`) and the rule evaluator `FilterRequest`. -/

/-- One IPv4 dotted-quad field.  Models the Go standard library's IPv4
field parser (`net.ParseIP`): non-empty, decimal digits only, no leading
zero in a multi-digit field, value at most 255. -/
def parseOctet (s : List Char) : Option Nat :=
  if s.isEmpty then none
  else if !(s.all fun c => c.isDigit) then none
  else if decide (1 < s.length) && (s.head? == some '0') then none
  else
    let v := s.foldl (fun a c => a * 10 + (c.toNat - 48)) 0
    if v ≤ 255 then some v else none

/-- The dotted-quad parser of the Go standard library (`netip.parseIPv4`,
also used by `net.ParseCIDR` for the address part): exactly four fields,
each per `parseOctet`; the result is the 32-bit value. -/
def parseIPv4 (s : String) : Option Nat :=
  match s.data.splitOn '.' with
  | [a, b, c, d] =>
      match parseOctet a, parseOctet b, parseOctet c, parseOctet d with
      | some x, some y, some z, some w => some (((x * 256 + y) * 256 + z) * 256 + w)
      | _, _, _, _ => none
  | _ => none

/-- Hexadecimal digit test, as in the Go standard library's IPv6 parser. -/
def isHexChar (c : Char) : Bool :=
  c.isDigit || ('a' ≤ c && c ≤ 'f') || ('A' ≤ c && c ≤ 'F')

/-- Value of a hexadecimal digit. -/
def hexVal (c : Char) : Nat :=
  if c.isDigit then c.toNat - 48
  else if 'a' ≤ c && c ≤ 'f' then c.toNat - 87
  else c.toNat - 55

/-- Group loop of the Go standard library's IPv6 parser
(`netip.parseIPv6`): repeatedly read a group of one to four hex digits,
handle a trailing embedded dotted-quad, single and double colons, and stop
at 16 bytes.  Returns the bytes read and the `::` position.  `fuel` bounds
the recursion by the input length (each step consumes characters), so a
sufficient initial value never reaches the `0` case. -/
def v6loop : Nat → List Char → Option Nat → List Nat → Option (List Nat × Option Nat)
  | 0, _, _, _ => none
  | fuel + 1, l, ell, acc =>
      if 16 ≤ acc.length then
        -- 16 bytes read: any remaining input is trailing garbage
        if l = [] then some (acc, ell) else none
      else
        match l.span isHexChar with
        | (hex, rest) =>
            if hex.length = 0 then none
            else if 4 < hex.length then none
            else
              let v := hex.foldl (fun a c => a * 16 + hexVal c) 0
              match rest with
              | '.' :: _ =>
                  -- embedded IPv4: the whole remainder from the group start
                  if ell = none ∧ acc.length ≠ 12 then none
                  else if 16 < acc.length + 4 then none
                  else
                    match parseIPv4 (String.mk l) with
                    | some a4 =>
                        some (acc ++ [a4 / 16777216, a4 / 65536 % 256, a4 / 256 % 256, a4 % 256],
                          ell)
                    | none => none
              | [] => some (acc ++ [v / 256, v % 256], ell)
              | ':' :: ':' :: rest2 =>
                  if ell ≠ none then none
                  else
                    let acc2 := acc ++ [v / 256, v % 256]
                    match rest2 with
                    | [] => some (acc2, some acc2.length)
                    | _ => v6loop fuel rest2 (some acc2.length) acc2
              | [':'] => none
              | ':' :: rest1 => v6loop fuel rest1 ell (acc ++ [v / 256, v % 256])
              | _ => none

/-- Models the Go standard library's IPv6 text parser (`netip.parseIPv6`
without zones, which `net.ParseIP` rejects anyway): leading `::`, the group
loop, then expansion of the `::` gap with zero bytes.  The result is the
128-bit value. -/
def parseV6 (s : String) : Option Nat :=
  let chars := s.data
  let hasLead := chars.take 2 = [':', ':']
  let rest0 := if hasLead then chars.drop 2 else chars
  let ell0 : Option Nat := if hasLead then some 0 else none
  if rest0 = [] then
    -- "::" alone is the unspecified address; the empty string is invalid
    if hasLead then some 0 else none
  else
    match v6loop (rest0.length + 1) rest0 ell0 [] with
    | none => none
    | some (acc, ell) =>
        if acc.length = 16 then
          match ell with
          | none => some (acc.foldl (fun a b => a * 256 + b) 0)
          | some _ => none   -- the :: must expand to at least one group
        else
          match ell with
          | none => none     -- address string too short
          | some e =>
              let bytes := acc.take e ++ List.replicate (16 - acc.length) 0 ++ acc.drop e
              some (bytes.foldl (fun a b => a * 256 + b) 0)

/-- Models Go `net.ParseIP` (`netip.ParseAddr` dispatch): the first of
`.`, `:`, `%` decides the family; `%` (zoned addresses) is rejected.  IPv4
addresses are returned in their 16-byte IPv4-mapped form (`::ffff:a.b.c.d`),
exactly as `net.ParseIP` produces them. -/
def parseIP (s : String) : Option Nat :=
  match s.data.find? (fun c => c == '.' || c == ':' || c == '%') with
  | some '.' => (parseIPv4 s).map (fun a4 => 65535 * 4294967296 + a4)
  | some ':' => parseV6 s
  | _ => none

/-- A parsed CIDR block in the family `IPNet.Contains` compares in:
a 32-bit network or a 128-bit network, with its prefix length. -/
inductive IPNet where
  | v4 (addr : Nat) (bits : Nat)
  | v6 (addr : Nat) (bits : Nat)
deriving Repr, DecidableEq

/-- Whether a 16-byte address value is IPv4-mapped (`::ffff:a.b.c.d`),
i.e. Go `IP.To4()` succeeds on it. -/
def isV4Mapped (u : Nat) : Bool := u / 4294967296 == 65535

/-- Models Go `IPNet.Contains`: the subject is normalized with `To4` (an
IPv4-mapped subject becomes 4 bytes), the families must agree, and the
upper `bits` bits are compared. -/
def netContains : IPNet → Nat → Bool
  | .v4 a n, u => isV4Mapped u && ((u % 4294967296) / 2 ^ (32 - n) == a / 2 ^ (32 - n))
  | .v6 a n, u => !isV4Mapped u && (u / 2 ^ (128 - n) == a / 2 ^ (128 - n))

/-- Models Go `net.ParseCIDR`: split at the first `/`; parse the address as
dotted-quad IPv4 first, else as IPv6; the decimal prefix length (leading
zeros allowed, as in Go's `dtoi`) must be at most 32 resp. 128.  An
IPv4-mapped IPv6 network address is normalized by `networkNumberAndMask`
to a 4-byte network whose effective mask is the last 32 bits of the
16-byte mask (`m[12:]`), i.e. prefix length `n - 96` clamped at 0. -/
def parseCIDR (s : String) : Option IPNet :=
  match s.data.splitOn '/' with
  | [addr, mask] =>
      if mask.isEmpty then none
      else if !(mask.all fun c => c.isDigit) then none
      else
        let n := mask.foldl (fun a c => a * 10 + (c.toNat - 48)) 0
        match parseIPv4 (String.mk addr) with
        | some a4 => if n ≤ 32 then some (.v4 a4 n) else none
        | none =>
            match parseV6 (String.mk addr) with
            | some a16 =>
                if n ≤ 128 then
                  if isV4Mapped a16 then
                    some (.v4 (a16 % 4294967296) (if n ≤ 96 then 0 else n - 96))
                  else some (.v6 a16 n)
                else none
            | none => none
  | _ => none

/-- The CIDR branch of `matchesIP` (filter.go lines 132–143):
`net.ParseCIDR` on the pattern (invalid pattern never matches),
`net.ParseIP` on the subject (`nil` never matches), then
`ipNet.Contains`. -/
def cidrMatch (pattern clientIP : String) : Bool :=
  match parseCIDR pattern with
  | none => false
  | some ipNet =>
      match parseIP clientIP with
      | none => false
      | some ip => netContains ipNet ip

/-- `matchesWildcard` (filter.go lines 182–208). -/
def matchesWildcard (pattern text : String) : Bool :=
  if pattern == "*" then true
  else if goStartsWith pattern "*" && goEndsWith pattern "*" then
    -- *substring*
    goContains text (String.mk ((pattern.data.drop 1).dropLast))
  else if goStartsWith pattern "*" then
    -- *suffix
    goEndsWith text (String.mk (pattern.data.drop 1))
  else if goEndsWith pattern "*" then
    -- prefix*
    goStartsWith text (String.mk (pattern.data.dropLast))
  else pattern == text

/-- `matchesIP` (filter.go lines 130–152): CIDR when the pattern contains
`/`, wildcard when it contains `*`, otherwise substring containment. -/
def matchesIP (pattern clientIP : String) : Bool :=
  if goContains pattern "/" then cidrMatch pattern clientIP
  else if goContains pattern "*" then matchesWildcard pattern clientIP
  else goContains clientIP pattern

/-- `matchesPath` (filter.go lines 155–168). -/
def matchesPath (pattern requestPath : String) : Bool :=
  if goContains pattern "*" then matchesWildcard pattern requestPath
  else if goEndsWith pattern "/" then goStartsWith requestPath pattern
  else goContains requestPath pattern

/-- `matchesDNS` (filter.go lines 171–179). -/
def matchesDNS (pattern hostname : String) : Bool :=
  if goContains pattern "*" then matchesWildcard pattern hostname
  else goContains hostname pattern

/-- `models.FilterRule`.  `matchType` and `actionType` are Go string-typed
enums (`"ip" | "path" | "dns"`, `"redirect" | "bad_request" | "too_many" |
"custom"`). -/
structure FilterRule where
  id : Int
  name : String
  matchType : String
  matchValue : String
  actionType : String
  actionValue : String
  statusCode : Int
  isActive : Bool
  priority : Int
deriving Repr, DecidableEq

/-- `matchesRule` (filter.go lines 116–127): dispatch on the match type;
unknown types never match. -/
def matchesRule (rule : FilterRule) (clientIP hostname requestPath : String) : Bool :=
  if rule.matchType == "ip" then matchesIP rule.matchValue clientIP
  else if rule.matchType == "path" then matchesPath rule.matchValue requestPath
  else if rule.matchType == "dns" then matchesDNS rule.matchValue hostname
  else false

/-- `getStatusCodeForAction` (filter.go lines 211–227). -/
def getStatusCodeForAction (rule : FilterRule) : Int :=
  if rule.actionType == "redirect" then 302
  else if rule.actionType == "bad_request" then 400
  else if rule.actionType == "too_many" then 429
  else if rule.actionType == "custom" then
    (if rule.statusCode > 0 then rule.statusCode else 403)
  else 403

/-- `getResponseForAction` (filter.go lines 230–252). -/
def getResponseForAction (rule : FilterRule) : String :=
  if rule.actionType == "redirect" then ""
  else if rule.actionType == "bad_request" then
    (if rule.actionValue != "" then rule.actionValue else "Bad Request")
  else if rule.actionType == "too_many" then
    (if rule.actionValue != "" then rule.actionValue else "Too Many Requests")
  else if rule.actionType == "custom" then
    (if rule.actionValue != "" then rule.actionValue else "Request Blocked")
  else "Request Blocked"

/-- `getRedirectURLForAction` (filter.go lines 255–260). -/
def getRedirectURLForAction (rule : FilterRule) : String :=
  if rule.actionType == "redirect" then rule.actionValue else ""

/-- A row of the `filter_logs` table, as written by `logFilteredRequest`. -/
structure FilterLogEntry where
  clientIP : String
  hostname : String
  requestPath : String
  userAgent : String
  filterId : Int
  matchType : String
  matchValue : String
  actionType : String
  statusCode : Int
deriving Repr, DecidableEq

/-- `FilterResult` (filter.go lines 107–113). -/
structure FilterResult where
  filtered : Bool
  rule : Option FilterRule := none
  statusCode : Int := 0
  response : String := ""
  redirectURL : String := ""
deriving Repr, DecidableEq

/-- `FilterRequest` (filter.go lines 76–104): scan the cached rules in list
order, return the first match together with the filter-log entry that
`logFilteredRequest` writes for it.  The request fields (client IP, host,
path, user agent) are passed already extracted. -/
def FilterRequest (rules : List FilterRule) (clientIP hostname requestPath userAgent : String) :
    FilterResult × List FilterLogEntry :=
  match rules.find? (fun rule => matchesRule rule clientIP hostname requestPath) with
  | some rule =>
      ({ filtered := true, rule := some rule
         statusCode := getStatusCodeForAction rule
         response := getResponseForAction rule
         redirectURL := getRedirectURLForAction rule },
       [{ clientIP := clientIP, hostname := hostname, requestPath := requestPath
          userAgent := userAgent, filterId := rule.id, matchType := rule.matchType
          matchValue := rule.matchValue, actionType := rule.actionType
          statusCode := getStatusCodeForAction rule }])
  | none => ({ filtered := false }, [])

/-! ### Filter pattern-semantics (claim C6) -/

/-- Match kind as named by the specification. -/
inductive MatchKind where
  | ip
  | path
  | dns
deriving Repr, DecidableEq

/-- The specification's pattern decision tree, written from the spec's
words: CIDR for values containing `/` (client-ip kind only), then the four
enumerated wildcard shapes, then the trailing-`/` path-anchor, then
substring containment.  Wildcard shapes the spec does not enumerate
(a `*` strictly inside the value) fall to `false` here; the comparison
theorem therefore hypothesises a covered shape. -/
def claimPatternMatch (kind : MatchKind) (V S : String) : Bool :=
  if goContains V "/" && decide (kind = MatchKind.ip) then
    -- parse V as CIDR; match iff S is a valid IP inside that block
    -- (a subject that is not a valid IP never matches)
    match parseCIDR V, parseIP S with
    | some ipNet, some ip => netContains ipNet ip
    | _, _ => false
  else if goContains V "*" then
    if V == "*" then true
    else if goStartsWith V "*" && goEndsWith V "*" then
      goContains S (String.mk ((V.data.drop 1).dropLast))
    else if goStartsWith V "*" then goEndsWith S (String.mk (V.data.drop 1))
    else if goEndsWith V "*" then goStartsWith S (String.mk (V.data.dropLast))
    else false
  else if goEndsWith V "/" && decide (kind = MatchKind.path) then goStartsWith S V
  else goContains S V

/-- On patterns whose `*` (if any) sits at an end, `matchesWildcard` agrees
with the spec's enumerated wildcard shapes. -/
theorem matchesWildcard_shape (V S : String)
    (h : goStartsWith V "*" = true ∨ goEndsWith V "*" = true) :
    matchesWildcard V S =
      (if V == "*" then true
       else if goStartsWith V "*" && goEndsWith V "*" then
         goContains S (String.mk ((V.data.drop 1).dropLast))
       else if goStartsWith V "*" then goEndsWith S (String.mk (V.data.drop 1))
       else if goEndsWith V "*" then goStartsWith S (String.mk (V.data.dropLast))
       else false) := by
  unfold matchesWildcard
  split_ifs with h1 h2 h3 h4
  · rfl
  · rfl
  · rfl
  · rfl
  · rcases h with hh | hh
    · exact absurd hh h3
    · exact absurd hh h4

/-- The code's CIDR branch coincides with the spec's reading: parse `V` as
a CIDR block and `S` as an IP, and compare; either parse failing means no
match (shared helper). -/
theorem cidrMatch_eq_parse (V S : String) :
    cidrMatch V S =
      (match parseCIDR V, parseIP S with
       | some ipNet, some ip => netContains ipNet ip
       | _, _ => false) := by
  unfold cidrMatch
  cases hc : parseCIDR V <;> cases hi : parseIP S <;> simp

/-- C6.  For every filter-rule match value `V` and subject `S` (for patterns
whose `*`, if any, sits at an end — the shapes the specification
enumerates): the CIDR branch applies iff `V` contains `/` and the kind is
client-ip, matching iff `S` parses as an IP contained in the block `V`
parses to (so a non-IP subject never matches a CIDR rule); the wildcard
shapes `*`, `*X*`, `*X`, `X*` behave as specified; a `V` ending in `/`
anchors a path prefix; otherwise substring containment — for each of the
three match kinds the source dispatches on. -/
theorem filter_pattern_semantics (V S : String)
    (hshape : goContains V "*" = true →
      goStartsWith V "*" = true ∨ goEndsWith V "*" = true) :
    matchesIP V S = claimPatternMatch MatchKind.ip V S ∧
    matchesPath V S = claimPatternMatch MatchKind.path V S ∧
    matchesDNS V S = claimPatternMatch MatchKind.dns V S ∧
    (goContains V "/" = true → parseIP S = none → matchesIP V S = false) := by
  refine ⟨?_, ?_, ?_, ?_⟩
  · unfold matchesIP claimPatternMatch
    by_cases hs : goContains V "/" = true
    · rw [cidrMatch_eq_parse]
      simp [hs]
    · rw [Bool.not_eq_true] at hs
      by_cases hw : goContains V "*" = true
      · rw [matchesWildcard_shape V S (hshape hw)]
        simp [hs, hw]
      · rw [Bool.not_eq_true] at hw
        simp [hs, hw]
  · unfold matchesPath claimPatternMatch
    by_cases hw : goContains V "*" = true
    · rw [matchesWildcard_shape V S (hshape hw)]
      simp [hw]
    · rw [Bool.not_eq_true] at hw
      simp [hw]
  · unfold matchesDNS claimPatternMatch
    by_cases hw : goContains V "*" = true
    · rw [matchesWildcard_shape V S (hshape hw)]
      simp [hw]
    · rw [Bool.not_eq_true] at hw
      simp [hw]
  · intro hs hnone
    unfold matchesIP
    rw [hs, if_pos rfl, cidrMatch_eq_parse, hnone]
    cases parseCIDR V <;> rfl

/-- Witness for C6 at the spec's own truth-table row
(`*admin*` against `/admin/login`). -/
theorem filter_pattern_semantics_witness :
    matchesIP "*admin*" "/admin/login" = claimPatternMatch MatchKind.ip "*admin*" "/admin/login" ∧
    matchesPath "*admin*" "/admin/login" = claimPatternMatch MatchKind.path "*admin*" "/admin/login" ∧
    matchesDNS "*admin*" "/admin/login" = claimPatternMatch MatchKind.dns "*admin*" "/admin/login" ∧
    (goContains "*admin*" "/" = true → parseIP "/admin/login" = none →
      matchesIP "*admin*" "/admin/login" = false) :=
  filter_pattern_semantics "*admin*" "/admin/login" (by decide)

/-! ## Proxy package: routing cache, backend selector, request handler -/

/-- `models.Backend`.  The scratch `Ratio` float field — written and read
back only within the same iteration of the selection loop — is inlined
into the priority computation. -/
structure Backend where
  id : Int
  url : String
  weight : Int
  isActive : Bool
deriving Repr, DecidableEq

/-- `models.DNSRule` (the two columns `refreshCache` queries). -/
structure DNSRule where
  id : Int
  hostname : String
deriving Repr, DecidableEq

/-- The proxy's mutable state: the DNS-rule cache (`dnsRuleCache`) and the
per-backend selection counters (`backendCountMap`, keyed by backend URL,
missing keys reading as 0). -/
structure ProxyState where
  dnsRuleCache : String → Option (List Backend)
  backendCountMap : String → Int

/-- `refreshCache` (proxy.go lines 45–121), with the database rows passed
in: for each DNS rule, keep its active backends; store the list under the
rule's hostname when non-empty; finally swap the cache.  The selection
counters are left untouched (the function body never writes
`backendCountMap`, despite the comment announcing a reset). -/
def refreshCache (rows : List (DNSRule × List Backend)) (st : ProxyState) : ProxyState :=
  let tempCache :=
    rows.foldl
      (fun acc rb =>
        let backends := rb.2.filter (fun b => b.isActive)
        if backends.length > 0 then setAt acc rb.1.hostname (some backends) else acc)
      (fun _ => none)
  { dnsRuleCache := tempCache, backendCountMap := st.backendCountMap }

/-- C4 (code bug).  `refreshCache` never resets the per-backend selection
counters: the counter map after any refresh is exactly the counter map
before it, and on the concrete input where `http://u1` has been selected
5 times the count after a refresh is still 5, not 0. -/
theorem refreshCache_preserves_counts :
    (∀ rows st, (refreshCache rows st).backendCountMap = st.backendCountMap) ∧
    (refreshCache
        [(⟨1, "api.test"⟩, [⟨7, "http://u1", 1, true⟩])]
        { dnsRuleCache := fun _ => none
          backendCountMap := fun u => if u = "http://u1" then 5 else 0 }).backendCountMap
      "http://u1" = 5 := by
  constructor
  · intro rows st
    rfl
  · rfl

/-- `minWeight` computation of `selectBackend` (proxy.go lines 143–148). -/
def minWeightOf : List Backend → Int
  | [] => 0
  | b0 :: rest => (b0 :: rest).foldl (fun m b => if b.weight < m then b.weight else m) b0.weight

/-! ### IEEE-754 binary64 arithmetic

`selectBackend` computes its priorities in Go `float64`.  Rounding matters:
the exact ratios `13/3 - 2` and `7/3` tie, but their binary64 roundings do
not, and the selection can differ.  `roundFloat64` is round-to-nearest-even
to a 53-bit significand, which is exactly IEEE-754 binary64 on the normal
range (no overflow, underflow or NaN arise from the selector's values under
the positive-weight hypothesis). -/

/-- Floor of the base-2 logarithm of a natural number (`fuel`-bounded
structural recursion so that concrete evaluation stays kernel-reducible;
`fuel = 1200` covers all magnitudes that arise). -/
def natLog2 : Nat → Nat → Nat
  | 0, _ => 0
  | fuel + 1, n => if n ≤ 1 then 0 else natLog2 fuel (n / 2) + 1

/-- Ceiling of the base-2 logarithm of a natural number (smallest `k` with
`c ≤ 2 ^ k`), `fuel`-bounded like `natLog2`. -/
def natClog2 : Nat → Nat → Nat
  | 0, _ => 0
  | fuel + 1, c => if c ≤ 1 then 0 else natClog2 fuel ((c + 1) / 2) + 1

/-- The binade exponent of a positive rational: the `e` with
`2 ^ e ≤ m < 2 ^ (e + 1)`. -/
def qlog2 (m : ℚ) : ℤ :=
  if 1 ≤ m then (natLog2 1200 ⌊m⌋.toNat : ℤ)
  else -(natClog2 1200 ⌈m⁻¹⌉.toNat : ℤ)

/-- Round a rational to the nearest integer, ties to even. -/
def roundRatF (x : ℚ) : ℤ :=
  let n := ⌊x⌋
  let frac := x - (n : ℚ)
  if frac < 1/2 then n
  else if 1/2 < frac then n + 1
  else if n % 2 = 0 then n else n + 1

/-- Round a rational to the nearest IEEE-754 binary64 value
(round-to-nearest, ties-to-even, 53-bit significand; exact on the normal
range, which is all the selector reaches). -/
def roundFloat64 (q : ℚ) : ℚ :=
  if q = 0 then 0
  else
    let m := |q|
    let e := qlog2 m
    let n := roundRatF (m * (2 : ℚ) ^ ((52 : ℤ) - e))
    let mag := (n : ℚ) * (2 : ℚ) ^ (e - (52 : ℤ))
    if q < 0 then -mag else mag

/-- Go `float64(n)` conversion of an integer (exact below `2 ^ 53`). -/
def toF (n : Int) : ℚ := roundFloat64 (n : ℚ)

/-- `natLog2` returns the binade of its argument whenever the fuel exceeds
that binade (shared evaluation helper). -/
theorem natLog2_eval : ∀ (fuel k e : ℕ), 2 ^ e ≤ k → k < 2 ^ (e + 1) → e < fuel →
    natLog2 fuel k = e := by
  intro fuel
  induction fuel with
  | zero =>
      intro k e _ _ h
      omega
  | succ f ih =>
      intro k e h1 h2 hf
      show (if k ≤ 1 then 0 else natLog2 f (k / 2) + 1) = e
      by_cases hk : k ≤ 1
      · rw [if_pos hk]
        by_contra hne
        have : 2 ^ 1 ≤ 2 ^ e := Nat.pow_le_pow_right (by omega) (by omega)
        omega
      · rw [if_neg hk]
        have he1 : 1 ≤ e := by
          by_contra hne
          have he0 : e = 0 := by omega
          subst he0
          norm_num at h2
          omega
        have h1a : 2 ^ (e - 1) * 2 ≤ k := by
          have hpow : 2 ^ (e - 1) * 2 = 2 ^ e := by
            rw [← Nat.pow_succ]
            congr 1
            omega
          omega
        have h2a : k < 2 ^ (e - 1 + 1) * 2 := by
          have hpow : 2 ^ (e - 1 + 1) * 2 = 2 ^ (e + 1) := by
            rw [← Nat.pow_succ]
            congr 1
            omega
          omega
        have := ih (k / 2) (e - 1) (by omega) (by omega) (by omega)
        rw [this]
        omega

/-- `qlog2` evaluation: the exponent of the binade containing `m`
(shared evaluation helper). -/
theorem qlog2_eq (m : ℚ) (n : ℕ) (hn : n < 1200)
    (h1 : (2 : ℚ) ^ n ≤ m) (h2 : m < 2 ^ (n + 1)) : qlog2 m = n := by
  have hm1 : (1 : ℚ) ≤ m := le_trans (one_le_pow₀ (by norm_num)) h1
  rw [qlog2, if_pos hm1]
  norm_cast
  apply natLog2_eval 1200 _ n _ _ hn
  · have hfl : ((2 ^ n : ℕ) : ℤ) ≤ ⌊m⌋ := by
      apply Int.le_floor.mpr
      push_cast
      exact h1
    have hb : 1 ≤ 2 ^ n := Nat.one_le_two_pow
    omega
  · have hfl : ⌊m⌋ < ((2 ^ (n + 1) : ℕ) : ℤ) := by
      apply Int.floor_lt.mpr
      push_cast
      exact h2
    have hb : 1 ≤ 2 ^ (n + 1) := Nat.one_le_two_pow
    omega

/-- `roundRatF` on an integer is that integer (shared evaluation helper). -/
theorem roundRatF_intCast (z : ℤ) : roundRatF (z : ℚ) = z := by
  simp only [roundRatF, Int.floor_intCast, sub_self]
  norm_num

/-- `roundRatF` when the fractional part is below one half (shared
evaluation helper). -/
theorem roundRatF_eq_of (x : ℚ) (f : ℤ) (hf : ⌊x⌋ = f) (hlt : x - (f : ℚ) < 1 / 2) :
    roundRatF x = f := by
  simp only [roundRatF, hf]
  rw [if_pos hlt]

/-- `roundRatF` when the fractional part is above one half (shared
evaluation helper). -/
theorem roundRatF_eq_succ_of (x : ℚ) (f : ℤ) (hf : ⌊x⌋ = f)
    (hge : ¬ x - (f : ℚ) < 1 / 2) (hgt : 1 / 2 < x - (f : ℚ)) :
    roundRatF x = f + 1 := by
  simp only [roundRatF, hf]
  rw [if_neg hge, if_pos hgt]

/-- Evaluation of `roundFloat64` on a positive rational in the binade
`[2 ^ n, 2 ^ (n + 1))` whose scaled rounding is `k` (shared helper). -/
theorem roundFloat64_eval (q : ℚ) (n : ℕ) (k : ℤ) (hn : n < 1200)
    (h1 : (2 : ℚ) ^ n ≤ q) (h2 : q < 2 ^ (n + 1))
    (hk : roundRatF (q * 2 ^ ((52 : ℤ) - (n : ℤ))) = k) :
    roundFloat64 q = (k : ℚ) * 2 ^ ((n : ℤ) - 52) := by
  have hpos : 0 < q := lt_of_lt_of_le (by positivity) h1
  have hqe : qlog2 q = (n : ℤ) := qlog2_eq q n hn h1 h2
  simp only [roundFloat64, if_neg (ne_of_gt hpos), abs_of_pos hpos, hqe, hk,
    if_neg (not_lt.mpr (le_of_lt hpos))]

/-- A positive rational already representable in binary64 (the scaled value
is an integer) rounds to itself (shared helper). -/
theorem roundFloat64_exact (q : ℚ) (n : ℕ) (z : ℤ) (hn : n < 1200)
    (h1 : (2 : ℚ) ^ n ≤ q) (h2 : q < 2 ^ (n + 1))
    (hz : q * 2 ^ ((52 : ℤ) - (n : ℤ)) = (z : ℚ)) :
    roundFloat64 q = q := by
  have heval := roundFloat64_eval q n z hn h1 h2 (by rw [hz]; exact roundRatF_intCast z)
  rw [heval, ← hz]
  calc q * 2 ^ ((52 : ℤ) - (n : ℤ)) * 2 ^ ((n : ℤ) - 52)
      = q * (2 ^ ((52 : ℤ) - (n : ℤ)) * 2 ^ ((n : ℤ) - 52)) := by ring
    _ = q * 2 ^ (((52 : ℤ) - (n : ℤ)) + ((n : ℤ) - 52)) := by
        rw [← zpow_add₀ (by norm_num : (2 : ℚ) ≠ 0)]
    _ = q := by norm_num

/-- A negative rational already representable in binary64 rounds to itself
(shared helper). -/
theorem roundFloat64_exact_neg (q : ℚ) (n : ℕ) (z : ℤ) (hn : n < 1200)
    (h1 : (2 : ℚ) ^ n ≤ -q) (h2 : -q < 2 ^ (n + 1))
    (hz : -q * 2 ^ ((52 : ℤ) - (n : ℤ)) = (z : ℚ)) :
    roundFloat64 q = q := by
  have hneg : q < 0 := by nlinarith [pow_pos (show (0 : ℚ) < 2 by norm_num) n]
  have hq0 : ¬ q = 0 := by
    intro h
    rw [h] at hneg
    exact absurd hneg (by norm_num)
  have hqe : qlog2 (-q) = (n : ℤ) := qlog2_eq (-q) n hn h1 h2
  have hk : roundRatF (-q * 2 ^ ((52 : ℤ) - (n : ℤ))) = z := by
    rw [hz]
    exact roundRatF_intCast z
  simp only [roundFloat64, if_neg hq0, abs_of_neg hneg, hqe, hk, if_pos hneg]
  rw [← hz]
  calc -(-q * 2 ^ ((52 : ℤ) - (n : ℤ)) * 2 ^ ((n : ℤ) - 52))
      = q * (2 ^ ((52 : ℤ) - (n : ℤ)) * 2 ^ ((n : ℤ) - 52)) := by ring
    _ = q * 2 ^ (((52 : ℤ) - (n : ℤ)) + ((n : ℤ) - 52)) := by
        rw [← zpow_add₀ (by norm_num : (2 : ℚ) ≠ 0)]
    _ = q := by norm_num

/-- The per-candidate priority (proxy.go lines 162–168), computed exactly
as the Go source does in `float64`:
`ratio := float64(weight) / float64(minWeight)` (converted operands,
correctly rounded division) and `priority := ratio - float64(count)`
(correctly rounded subtraction). -/
def priorityOf (minW : Int) (counts : String → Int) (b : Backend) : ℚ :=
  let ratio := roundFloat64 (toF b.weight / toF minW)
  roundFloat64 (ratio - toF (counts b.url))

/-- The priority formula as claim C5 states it, in exact arithmetic:
`weight / w_min - selected_count` over the rationals. -/
def exactPriorities (bs : List Backend) (counts : String → Int) : List ℚ :=
  bs.map (fun b => (b.weight : ℚ) / (minWeightOf bs : ℚ) - (counts b.url : ℚ))

/-- The selection loop of `selectBackend` (proxy.go lines 157–174): walk
the candidates keeping the current best and its priority; a strictly
greater priority displaces the current best. -/
def selectLoop (minW : Int) (counts : String → Int) :
    List Backend → Option Backend × ℚ → Option Backend × ℚ
  | [], acc => acc
  | b :: rest, (sel, maxP) =>
      let p := priorityOf minW counts b
      if sel.isNone || decide (p > maxP) then selectLoop minW counts rest (some b, p)
      else selectLoop minW counts rest (sel, maxP)

/-- `selectBackend` (proxy.go lines 133–180): single-candidate shortcut,
otherwise the weighted selection loop; the chosen backend's counter is
incremented.  Go panics on an empty slice; this is modelled as `none`. -/
def selectBackend (backends : List Backend) (counts : String → Int) :
    Option Backend × (String → Int) :=
  match backends with
  | [] => (none, counts)
  | [b] => (some b, setAt counts b.url (counts b.url + 1))
  | b0 :: b1 :: rest =>
      let minW := minWeightOf (b0 :: b1 :: rest)
      match selectLoop minW counts (b0 :: b1 :: rest) (none, 0) with
      | (some sel, _) => (some sel, setAt counts sel.url (counts sel.url + 1))
      | (none, _) => (none, counts)

/-- The list of the priorities `selectBackend` actually computes (the
`float64` values, one per candidate). -/
def priorities (bs : List Backend) (counts : String → Int) : List ℚ :=
  bs.map (priorityOf (minWeightOf bs) counts)

/-- Reading the priority list at an index that holds candidate `c`. -/
theorem priorities_getD (bs : List Backend) (counts : String → Int) (j : Nat)
    (c : Backend) (h : bs[j]? = some c) :
    (priorities bs counts).getD j 0 = priorityOf (minWeightOf bs) counts c := by
  simp [priorities, List.getD_eq_getElem?_getD, List.getElem?_map, h]

/-- Invariant of the selection loop: started at a current best `sel`
carrying its own priority, the loop returns the first candidate (current
best included) attaining the maximum priority; strict improvement is
required to displace the best, so earlier positions win ties. -/
theorem selectLoop_go (minW : Int) (counts : String → Int) :
    ∀ (l : List Backend) (sel : Backend),
      ∃ r, selectLoop minW counts l (some sel, priorityOf minW counts sel) =
             (some r, priorityOf minW counts r) ∧
        ((r = sel ∧ ∀ b ∈ l, priorityOf minW counts b ≤ priorityOf minW counts sel) ∨
         (∃ i, i < l.length ∧ l[i]? = some r ∧
            priorityOf minW counts sel < priorityOf minW counts r ∧
            (∀ j b, j < i → l[j]? = some b →
              priorityOf minW counts b < priorityOf minW counts r) ∧
            (∀ b ∈ l, priorityOf minW counts b ≤ priorityOf minW counts r))) := by
  intro l
  induction l with
  | nil =>
      intro sel
      exact ⟨sel, rfl, Or.inl ⟨rfl, by simp⟩⟩
  | cons b rest ih =>
      intro sel
      by_cases hgt : priorityOf minW counts b > priorityOf minW counts sel
      · have hstep : selectLoop minW counts (b :: rest)
              (some sel, priorityOf minW counts sel)
            = selectLoop minW counts rest (some b, priorityOf minW counts b) := by
          simp only [selectLoop]
          simp [hgt]
        obtain ⟨r, heq, hcase⟩ := ih b
        refine ⟨r, hstep.trans heq, ?_⟩
        rcases hcase with ⟨hrb, hall⟩ | ⟨i, hi, hget, hlt, hfirst, hall⟩
        · subst hrb
          right
          refine ⟨0, by simp, by simp, hgt, ?_, ?_⟩
          · intro j c hj _
            omega
          · intro c hc
            rcases List.mem_cons.mp hc with rfl | hc
            · exact le_refl _
            · exact hall c hc
        · right
          refine ⟨i + 1, by simpa using hi, by simpa using hget,
            lt_trans hgt hlt, ?_, ?_⟩
          · intro j c hj hjget
            cases j with
            | zero =>
                simp only [List.getElem?_cons_zero, Option.some.injEq] at hjget
                subst hjget
                exact hlt
            | succ j' =>
                simp only [List.getElem?_cons_succ] at hjget
                exact hfirst j' c (by omega) hjget
          · intro c hc
            rcases List.mem_cons.mp hc with rfl | hc
            · exact le_of_lt hlt
            · exact hall c hc
      · have hstep : selectLoop minW counts (b :: rest)
              (some sel, priorityOf minW counts sel)
            = selectLoop minW counts rest (some sel, priorityOf minW counts sel) := by
          simp only [selectLoop]
          simp [hgt]
        obtain ⟨r, heq, hcase⟩ := ih sel
        refine ⟨r, hstep.trans heq, ?_⟩
        rcases hcase with ⟨hrs, hall⟩ | ⟨i, hi, hget, hlt, hfirst, hall⟩
        · left
          refine ⟨hrs, ?_⟩
          intro c hc
          rcases List.mem_cons.mp hc with rfl | hc
          · exact not_lt.mp hgt
          · exact hall c hc
        · right
          refine ⟨i + 1, by simpa using hi, by simpa using hget, hlt, ?_, ?_⟩
          · intro j c hj hjget
            cases j with
            | zero =>
                simp only [List.getElem?_cons_zero, Option.some.injEq] at hjget
                subst hjget
                exact lt_of_le_of_lt (not_lt.mp hgt) hlt
            | succ j' =>
                simp only [List.getElem?_cons_succ] at hjget
                exact hfirst j' c (by omega) hjget
          · intro c hc
            rcases List.mem_cons.mp hc with rfl | hc
            · exact le_of_lt (lt_of_le_of_lt (not_lt.mp hgt) hlt)
            · exact hall c hc

/-- C5 (amended).  For every non-empty candidate list and counter state
(weights positive, so the modelled `float64` arithmetic is well defined),
the selector returns the candidate at the first index maximizing the
`float64`-computed priority `fl(fl(weight / w_min) − selected_count)` —
ties in the computed values broken in favor of the earlier list position —
and increments exactly that candidate's counter; a single-element list
yields its sole backend. -/
theorem selectBackend_first_argmax (bs : List Backend) (counts : String → Int)
    (hne : bs ≠ []) (hw : ∀ b ∈ bs, 0 < b.weight) :
    ∃ i b, i < bs.length ∧ bs[i]? = some b ∧
      selectBackend bs counts = (some b, setAt counts b.url (counts b.url + 1)) ∧
      (∀ j, j < bs.length →
        (priorities bs counts).getD j 0 ≤ (priorities bs counts).getD i 0) ∧
      (∀ j, j < i →
        (priorities bs counts).getD j 0 < (priorities bs counts).getD i 0) ∧
      (bs.length = 1 → i = 0) := by
  cases bs with
  | nil => exact absurd rfl hne
  | cons b0 tl =>
    cases tl with
    | nil =>
        refine ⟨0, b0, by simp, by simp, rfl, ?_, by omega, fun _ => rfl⟩
        intro j hj
        have hj0 : j = 0 := by simpa using hj
        subst hj0
        exact le_refl _
    | cons b1 rest =>
        have hstep0 : selectLoop (minWeightOf (b0 :: b1 :: rest)) counts
              (b0 :: b1 :: rest) (none, 0)
            = selectLoop (minWeightOf (b0 :: b1 :: rest)) counts (b1 :: rest)
                (some b0, priorityOf (minWeightOf (b0 :: b1 :: rest)) counts b0) := by
          conv_lhs => rw [selectLoop]
          simp
        obtain ⟨r, heq, hcase⟩ :=
          selectLoop_go (minWeightOf (b0 :: b1 :: rest)) counts (b1 :: rest) b0
        have hsel : selectBackend (b0 :: b1 :: rest) counts
            = (some r, setAt counts r.url (counts r.url + 1)) := by
          simp only [selectBackend]
          rw [hstep0, heq]
        rcases hcase with ⟨hrb, hall⟩ | ⟨i, hi, hget, hlt, hfirst, hall⟩
        · rw [hrb] at hsel
          refine ⟨0, b0, by simp, by simp, hsel, ?_, by omega, fun _ => rfl⟩
          intro j hj
          rw [priorities_getD _ counts 0 b0 (by simp)]
          have hjget : (b0 :: b1 :: rest)[j]? = some ((b0 :: b1 :: rest)[j]) :=
            List.getElem?_eq_getElem hj
          rw [priorities_getD _ counts j _ hjget]
          have hmem : (b0 :: b1 :: rest)[j] ∈ b0 :: b1 :: rest := List.getElem_mem hj
          rcases List.mem_cons.mp hmem with hh | hh
          · rw [hh]
          · exact hall _ hh
        · refine ⟨i + 1, r, by simpa using hi, by simpa using hget, hsel, ?_, ?_, ?_⟩
          · intro j hj
            rw [priorities_getD _ counts (i + 1) r (by simpa using hget)]
            have hjget : (b0 :: b1 :: rest)[j]? = some ((b0 :: b1 :: rest)[j]) :=
              List.getElem?_eq_getElem hj
            rw [priorities_getD _ counts j _ hjget]
            have hmem : (b0 :: b1 :: rest)[j] ∈ b0 :: b1 :: rest := List.getElem_mem hj
            rcases List.mem_cons.mp hmem with hh | hh
            · rw [hh]
              exact le_of_lt hlt
            · exact hall _ hh
          · intro j hj
            rw [priorities_getD _ counts (i + 1) r (by simpa using hget)]
            cases j with
            | zero =>
                rw [priorities_getD _ counts 0 b0 (by simp)]
                exact hlt
            | succ j' =>
                have hj' : j' < i := by omega
                have hj'len : j' < (b1 :: rest).length := by
                  have := hi
                  omega
                have hjget : (b1 :: rest)[j']? = some ((b1 :: rest)[j']) :=
                  List.getElem?_eq_getElem hj'len
                rw [priorities_getD _ counts (j' + 1) _
                  (by rw [List.getElem?_cons_succ]; exact hjget)]
                exact hfirst j' _ hj' hjget
          · intro h
            simp at h

/-- Witness for C5: two candidates with weights 1 and 3 and zero counts;
the theorem produces the selected index and its maximality facts. -/
theorem selectBackend_first_argmax_witness :
    (([⟨1, "http://u1", 1, true⟩, ⟨2, "http://u2", 3, true⟩] : List Backend) ≠ []) ∧
    (∀ b ∈ ([⟨1, "http://u1", 1, true⟩, ⟨2, "http://u2", 3, true⟩] : List Backend),
      0 < b.weight) ∧
    (∃ i b,
      i < ([⟨1, "http://u1", 1, true⟩, ⟨2, "http://u2", 3, true⟩] : List Backend).length ∧
      ([⟨1, "http://u1", 1, true⟩, ⟨2, "http://u2", 3, true⟩] : List Backend)[i]? = some b ∧
      selectBackend [⟨1, "http://u1", 1, true⟩, ⟨2, "http://u2", 3, true⟩] (fun _ => 0)
        = (some b, setAt (fun _ => 0) b.url ((fun (_ : String) => (0 : Int)) b.url + 1)) ∧
      (∀ j, j < ([⟨1, "http://u1", 1, true⟩, ⟨2, "http://u2", 3, true⟩] : List Backend).length →
        (priorities [⟨1, "http://u1", 1, true⟩, ⟨2, "http://u2", 3, true⟩] (fun _ => 0)).getD j 0
          ≤ (priorities [⟨1, "http://u1", 1, true⟩, ⟨2, "http://u2", 3, true⟩] (fun _ => 0)).getD i 0) ∧
      (∀ j, j < i →
        (priorities [⟨1, "http://u1", 1, true⟩, ⟨2, "http://u2", 3, true⟩] (fun _ => 0)).getD j 0
          < (priorities [⟨1, "http://u1", 1, true⟩, ⟨2, "http://u2", 3, true⟩] (fun _ => 0)).getD i 0) ∧
      (([⟨1, "http://u1", 1, true⟩, ⟨2, "http://u2", 3, true⟩] : List Backend).length = 1 → i = 0)) :=
  ⟨by decide, by decide,
   selectBackend_first_argmax [⟨1, "http://u1", 1, true⟩, ⟨2, "http://u2", 3, true⟩]
     (fun _ => 0) (by decide) (by decide)⟩

/-- C5 counterexample.  At weights `[13, 7, 3]` with selection counts
`[2, 0, 6]`, the exact-arithmetic priorities of the first two candidates
tie at `7/3`, so the claimed rule — maximize `weight / w_min −
selected_count`, earlier position winning ties — demands the first
candidate; but the selector computes in `float64`, where rounding across
binades makes the second priority strictly larger
(`fl(7/3) = 5254199565265579 · 2⁻⁵¹ > fl(fl(13/3) − 2) =
5254199565265578 · 2⁻⁵¹`), and it returns the second candidate. -/
theorem selectBackend_float_tie_break :
    exactPriorities
        [⟨1, "u1", 13, true⟩, ⟨2, "u2", 7, true⟩, ⟨3, "u3", 3, true⟩]
        (fun u => if u = "u1" then 2 else if u = "u3" then 6 else 0)
      = [7/3, 7/3, -5] ∧
    (selectBackend
        [⟨1, "u1", 13, true⟩, ⟨2, "u2", 7, true⟩, ⟨3, "u3", 3, true⟩]
        (fun u => if u = "u1" then 2 else if u = "u3" then 6 else 0)).1
      = some ⟨2, "u2", 7, true⟩ ∧
    (⟨2, "u2", 7, true⟩ : Backend) ≠ ⟨1, "u1", 13, true⟩ := by
  have ht13 : toF 13 = 13 := by
    rw [toF]
    push_cast
    exact roundFloat64_exact 13 3 (13 * 2 ^ 49) (by norm_num) (by norm_num) (by norm_num)
      (by push_cast; norm_num)
  have ht7 : toF 7 = 7 := by
    rw [toF]
    push_cast
    exact roundFloat64_exact 7 2 (7 * 2 ^ 50) (by norm_num) (by norm_num) (by norm_num)
      (by push_cast; norm_num)
  have ht3 : toF 3 = 3 := by
    rw [toF]
    push_cast
    exact roundFloat64_exact 3 1 (3 * 2 ^ 51) (by norm_num) (by norm_num) (by norm_num)
      (by push_cast; norm_num)
  have ht2 : toF 2 = 2 := by
    rw [toF]
    push_cast
    exact roundFloat64_exact 2 1 (2 ^ 52) (by norm_num) (by norm_num) (by norm_num)
      (by push_cast; norm_num)
  have ht6 : toF 6 = 6 := by
    rw [toF]
    push_cast
    exact roundFloat64_exact 6 2 (6 * 2 ^ 50) (by norm_num) (by norm_num) (by norm_num)
      (by push_cast; norm_num)
  have ht0 : toF 0 = 0 := by
    rw [toF]
    push_cast
    simp [roundFloat64]
  have hr13 : roundFloat64 ((13 : ℚ)/3) = 4878899596318037 / 2 ^ 50 := by
    have hk : roundRatF ((13 : ℚ)/3 * 2 ^ ((52 : ℤ) - ((2 : ℕ) : ℤ))) = 4878899596318037 := by
      rw [show ((52 : ℤ) - ((2 : ℕ) : ℤ)) = 50 from by norm_num,
        show (13 : ℚ)/3 * 2 ^ (50 : ℤ) = 14636698788954112 / 3 from by norm_num]
      exact roundRatF_eq_of _ 4878899596318037 (by norm_num) (by norm_num)
    rw [roundFloat64_eval ((13 : ℚ)/3) 2 4878899596318037 (by norm_num) (by norm_num)
      (by norm_num) hk]
    norm_num
  have hr7 : roundFloat64 ((7 : ℚ)/3) = 5254199565265579 / 2 ^ 51 := by
    have hk : roundRatF ((7 : ℚ)/3 * 2 ^ ((52 : ℤ) - ((1 : ℕ) : ℤ))) = 5254199565265579 := by
      rw [show ((52 : ℤ) - ((1 : ℕ) : ℤ)) = 51 from by norm_num,
        show (7 : ℚ)/3 * 2 ^ (51 : ℤ) = 15762598695796736 / 3 from by norm_num,
        show (5254199565265579 : ℤ) = 5254199565265578 + 1 from by norm_num]
      exact roundRatF_eq_succ_of _ 5254199565265578 (by norm_num) (by norm_num) (by norm_num)
    rw [roundFloat64_eval ((7 : ℚ)/3) 1 5254199565265579 (by norm_num) (by norm_num)
      (by norm_num) hk]
    norm_num
  have hr1 : roundFloat64 ((1 : ℚ)) = 1 :=
    roundFloat64_exact 1 0 (2 ^ 52) (by norm_num) (by norm_num) (by norm_num)
      (by push_cast; norm_num)
  have hp0 : priorityOf 3 (fun u => if u = "u1" then 2 else if u = "u3" then 6 else 0)
      ⟨1, "u1", 13, true⟩ = 2627099782632789 / 2 ^ 50 := by
    simp only [priorityOf]
    simp only [String.reduceEq, reduceIte]
    rw [ht13, ht3, ht2, hr13,
      show (4878899596318037 : ℚ) / 2 ^ 50 - 2 = 2627099782632789 / 2 ^ 50 from by norm_num]
    exact roundFloat64_exact _ 1 5254199565265578 (by norm_num) (by norm_num) (by norm_num)
      (by norm_num)
  have hp1 : priorityOf 3 (fun u => if u = "u1" then 2 else if u = "u3" then 6 else 0)
      ⟨2, "u2", 7, true⟩ = 5254199565265579 / 2 ^ 51 := by
    simp only [priorityOf]
    simp only [String.reduceEq, reduceIte]
    rw [ht7, ht3, ht0, hr7, sub_zero]
    exact roundFloat64_exact _ 1 5254199565265579 (by norm_num) (by norm_num) (by norm_num)
      (by norm_num)
  have hp2 : priorityOf 3 (fun u => if u = "u1" then 2 else if u = "u3" then 6 else 0)
      ⟨3, "u3", 3, true⟩ = -5 := by
    simp only [priorityOf]
    simp only [String.reduceEq, reduceIte]
    rw [ht3, ht6, show (3 : ℚ) / 3 = 1 from by norm_num, hr1,
      show (1 : ℚ) - 6 = -5 from by norm_num]
    exact roundFloat64_exact_neg (-5) 2 (5 * 2 ^ 50) (by norm_num) (by norm_num) (by norm_num)
      (by push_cast; norm_num)
  refine ⟨?_, ?_, by decide⟩
  · simp only [exactPriorities, show
      minWeightOf [⟨1, "u1", 13, true⟩, ⟨2, "u2", 7, true⟩, ⟨3, "u3", 3, true⟩] = 3 from rfl,
      List.map, String.reduceEq, reduceIte]
    norm_num
  · have hminW :
        minWeightOf [⟨1, "u1", 13, true⟩, ⟨2, "u2", 7, true⟩, ⟨3, "u3", 3, true⟩] = 3 := rfl
    have hstep0 : selectLoop 3 (fun u => if u = "u1" then 2 else if u = "u3" then 6 else 0)
          [⟨1, "u1", 13, true⟩, ⟨2, "u2", 7, true⟩, ⟨3, "u3", 3, true⟩] (none, 0)
        = selectLoop 3 (fun u => if u = "u1" then 2 else if u = "u3" then 6 else 0)
            [⟨2, "u2", 7, true⟩, ⟨3, "u3", 3, true⟩]
            (some ⟨1, "u1", 13, true⟩,
              priorityOf 3 (fun u => if u = "u1" then 2 else if u = "u3" then 6 else 0)
                ⟨1, "u1", 13, true⟩) := by
      conv_lhs => rw [selectLoop]
      simp
    obtain ⟨r, heq, hcase⟩ :=
      selectLoop_go 3 (fun u => if u = "u1" then 2 else if u = "u3" then 6 else 0)
        [⟨2, "u2", 7, true⟩, ⟨3, "u3", 3, true⟩] ⟨1, "u1", 13, true⟩
    have hrb1 : r = ⟨2, "u2", 7, true⟩ := by
      rcases hcase with ⟨hrb, hall⟩ | ⟨i, hi, hget, hlt, hfirst, hall⟩
      · exfalso
        have := hall ⟨2, "u2", 7, true⟩ (by simp)
        rw [hp0, hp1] at this
        norm_num at this
      · match i, hi, hget, hlt with
        | 0, _, hget, _ =>
            simp only [List.getElem?_cons_zero, Option.some.injEq] at hget
            exact hget.symm
        | 1, _, hget, hlt =>
            exfalso
            simp only [List.getElem?_cons_succ, List.getElem?_cons_zero,
              Option.some.injEq] at hget
            rw [hget] at hp2
            rw [hp0, hp2] at hlt
            norm_num at hlt
    subst hrb1
    simp only [selectBackend, hminW]
    rw [hstep0, heq]

/-- For every non-empty candidate list the selection loop produces a
backend, whose counter is bumped (shared helper). -/
theorem selectBackend_some (bs : List Backend) (counts : String → Int) (h : bs ≠ []) :
    ∃ b, selectBackend bs counts = (some b, setAt counts b.url (counts b.url + 1)) := by
  cases bs with
  | nil => exact absurd rfl h
  | cons b0 tl =>
    cases tl with
    | nil => exact ⟨b0, rfl⟩
    | cons b1 rest =>
        have hstep0 : selectLoop (minWeightOf (b0 :: b1 :: rest)) counts
              (b0 :: b1 :: rest) (none, 0)
            = selectLoop (minWeightOf (b0 :: b1 :: rest)) counts (b1 :: rest)
                (some b0, priorityOf (minWeightOf (b0 :: b1 :: rest)) counts b0) := by
          conv_lhs => rw [selectLoop]
          simp
        obtain ⟨r, heq, -⟩ :=
          selectLoop_go (minWeightOf (b0 :: b1 :: rest)) counts (b1 :: rest) b0
        refine ⟨r, ?_⟩
        simp only [selectBackend]
        rw [hstep0, heq]

/-! ### The proxy request handler (`proxyHandler`) -/

/-- The response `proxyHandler` writes for one request. -/
inductive ProxyResponse where
  /-- `http.Error(w, "No backends found ...", http.StatusGone)` (410). -/
  | gone (msg : String)
  /-- `http.Error(w, "Internal Server Error", 500)` when `url.Parse` fails. -/
  | internalError
  /-- The upstream's response, relayed through the reverse proxy. -/
  | upstream (status : Int)
  /-- `502 Bad Gateway` written by the proxy's `ErrorHandler`. -/
  | badGateway
deriving Repr, DecidableEq

/-- A request-log entry as submitted by `logRequest`. -/
structure RequestLogEntry where
  clientIP : String
  hostname : String
  requestPath : String
  backendID : Int
  latencyMS : Int
  statusCode : Int
  isSuccess : Bool
deriving Repr, DecidableEq

/-- Everything `proxyHandler` produces for one request: the response, the
request-log entries emitted (through `logRequest`), and the updated
selection counters.  The handler contains no filter-log write and no call
into the filter package, so no filter-log output exists to model. -/
structure ProxyOutcome where
  response : ProxyResponse
  requestLogs : List RequestLogEntry
  counts : String → Int

/-- `proxyHandler` (proxy.go lines 194–247): look up the host in the DNS
cache (410 when absent or empty), select a backend, parse its URL (500 on
failure, `urlOk` models `url.Parse` succeeding), forward, and log through
`ModifyResponse` (success) or `ErrorHandler` (502).  The upstream exchange
is modelled by `upstream`: `some status` for a response, `none` for a
transport error. -/
def proxyHandler (st : ProxyState) (host remoteAddr path : String)
    (urlOk : String → Bool) (upstream : Option Int) (latencyMS : Int) : ProxyOutcome :=
  match st.dnsRuleCache host with
  | none =>
      { response := .gone ("No backends found for this hostname " ++ host)
        requestLogs := [], counts := st.backendCountMap }
  | some backends =>
      if backends.length = 0 then
        { response := .gone ("No backends found for this hostname " ++ host)
          requestLogs := [], counts := st.backendCountMap }
      else
        match selectBackend backends st.backendCountMap with
        | (some backend, counts1) =>
            if urlOk backend.url then
              match upstream with
              | some status =>
                  { response := .upstream status
                    requestLogs := [{ clientIP := remoteAddr, hostname := host
                                      requestPath := path, backendID := backend.id
                                      latencyMS := latencyMS, statusCode := status
                                      isSuccess := true }]
                    counts := counts1 }
              | none =>
                  { response := .badGateway
                    requestLogs := [{ clientIP := remoteAddr, hostname := host
                                      requestPath := path, backendID := backend.id
                                      latencyMS := latencyMS, statusCode := 502
                                      isSuccess := false }]
                    counts := counts1 }
            else
              { response := .internalError, requestLogs := [], counts := counts1 }
        | (none, counts1) =>
            -- unreachable: `selectBackend` yields a backend for every
            -- non-empty list (`selectBackend_some`)
            { response := .internalError, requestLogs := [], counts := counts1 }

/-- C9 counterexample.  For a host with no cached backends the handler
writes the 410 diagnostic and emits **no** request-log entry at all — in
particular none with `backend_id = 0`. -/
theorem proxy_unknown_host_no_log :
    let st : ProxyState := { dnsRuleCache := fun _ => none, backendCountMap := fun _ => 0 }
    (proxyHandler st "nope.test" "192.0.2.5:1234" "/x" (fun _ => true) (some 200) 0).response
        = ProxyResponse.gone "No backends found for this hostname nope.test" ∧
    (proxyHandler st "nope.test" "192.0.2.5:1234" "/x" (fun _ => true) (some 200) 0).requestLogs
        = [] :=
  ⟨rfl, rfl⟩

/-- C9 amended.  For every request whose host has no candidate backends in
the routing cache (absent entry or empty list), the proxy responds 410
Gone with the diagnostic message and emits no request-log entry; the
selection counters are untouched. -/
theorem proxy_unknown_host_410 (st : ProxyState) (host remoteAddr path : String)
    (urlOk : String → Bool) (upstream : Option Int) (latencyMS : Int)
    (hmiss : st.dnsRuleCache host = none ∨ st.dnsRuleCache host = some []) :
    (proxyHandler st host remoteAddr path urlOk upstream latencyMS).response
        = ProxyResponse.gone ("No backends found for this hostname " ++ host) ∧
    (proxyHandler st host remoteAddr path urlOk upstream latencyMS).requestLogs = [] ∧
    (proxyHandler st host remoteAddr path urlOk upstream latencyMS).counts
        = st.backendCountMap := by
  rcases hmiss with h | h <;> simp [proxyHandler, h]

/-- Witness for C9 (amended) at a concrete empty cache. -/
theorem proxy_unknown_host_410_witness :
    let st : ProxyState := { dnsRuleCache := fun _ => none, backendCountMap := fun _ => 0 }
    (proxyHandler st "h.test" "1.2.3.4:5" "/p" (fun _ => true) none 1).response
        = ProxyResponse.gone ("No backends found for this hostname " ++ "h.test") ∧
    (proxyHandler st "h.test" "1.2.3.4:5" "/p" (fun _ => true) none 1).requestLogs = [] ∧
    (proxyHandler st "h.test" "1.2.3.4:5" "/p" (fun _ => true) none 1).counts
        = (fun _ => 0) :=
  proxy_unknown_host_410 _ "h.test" "1.2.3.4:5" "/p" _ none 1 (Or.inl rfl)

/-- C1 counterexample.  An active filter rule matching every path
(`match_value = "*"`, action `bad_request`) filters the request when
`FilterRequest` is invoked on it — yet the proxy handler forwards the very
same request to a cached backend and relays the upstream's 200: the
handler never evaluates the filter engine, so the matched request *is*
forwarded and answered with the upstream response rather than per the
rule's action. -/
theorem proxy_forwards_despite_matching_filter :
    let rStar : FilterRule :=
      { id := 1, name := "block-all", matchType := "path", matchValue := "*"
        actionType := "bad_request", actionValue := "", statusCode := 0
        isActive := true, priority := 10 }
    let st : ProxyState :=
      { dnsRuleCache := fun h => if h = "api.test" then some [⟨7, "http://u1", 1, true⟩] else none
        backendCountMap := fun _ => 0 }
    (FilterRequest [rStar] "192.0.2.5" "api.test" "/x" "curl").1.filtered = true ∧
    (proxyHandler st "api.test" "192.0.2.5:9" "/x" (fun _ => true) (some 200) 3).response
        = ProxyResponse.upstream 200 := by
  exact ⟨by decide, by decide⟩

/-- C1 amended.  The filter engine, *when invoked*, does behave as
specified — the first rule matching the request yields a filtered result
carrying the rule's action status/body/redirect and exactly one filter-log
entry — but the proxy listener's request handler never invokes it: for a
host with cached backends the handler forwards the request to the selected
backend and logs the upstream outcome, independent of any filter rules. -/
theorem filterRequest_behavior_proxy_decoupled
    (rules : List FilterRule) (clientIP hostname requestPath userAgent : String)
    (rule : FilterRule) (st : ProxyState) (host remoteAddr path : String)
    (urlOk : String → Bool) (status : Int) (latencyMS : Int) (backends : List Backend)
    (hfind : rules.find? (fun r => matchesRule r clientIP hostname requestPath) = some rule)
    (hcache : st.dnsRuleCache host = some backends)
    (hne : backends ≠ [])
    (hurl : ∀ u, urlOk u = true) :
    FilterRequest rules clientIP hostname requestPath userAgent =
      ({ filtered := true, rule := some rule
         statusCode := getStatusCodeForAction rule
         response := getResponseForAction rule
         redirectURL := getRedirectURLForAction rule },
       [{ clientIP := clientIP, hostname := hostname, requestPath := requestPath
          userAgent := userAgent, filterId := rule.id, matchType := rule.matchType
          matchValue := rule.matchValue, actionType := rule.actionType
          statusCode := getStatusCodeForAction rule }]) ∧
    ∃ b : Backend, (proxyHandler st host remoteAddr path urlOk (some status) latencyMS).response
            = ProxyResponse.upstream status ∧
         (proxyHandler st host remoteAddr path urlOk (some status) latencyMS).requestLogs
            = [{ clientIP := remoteAddr, hostname := host, requestPath := path
                 backendID := b.id, latencyMS := latencyMS, statusCode := status
                 isSuccess := true }] := by
  constructor
  · unfold FilterRequest
    rw [hfind]
  · obtain ⟨b, hb⟩ := selectBackend_some backends st.backendCountMap hne
    have hlen : ¬ backends.length = 0 := by
      simpa [List.length_eq_zero] using hne
    refine ⟨b, ?_, ?_⟩ <;> simp [proxyHandler, hcache, hlen, hb, hurl]

/-- Witness for C1 (amended): the block-all rule is the first match, and
the handler still forwards to the sole cached backend. -/
theorem filterRequest_behavior_proxy_decoupled_witness :
    let rStar : FilterRule :=
      { id := 1, name := "block-all", matchType := "path", matchValue := "*"
        actionType := "bad_request", actionValue := "", statusCode := 0
        isActive := true, priority := 10 }
    let st : ProxyState :=
      { dnsRuleCache := fun _ => some [⟨7, "http://u1", 1, true⟩]
        backendCountMap := fun _ => 0 }
    FilterRequest [rStar] "192.0.2.5" "api.test" "/x" "curl" =
      ({ filtered := true, rule := some rStar
         statusCode := getStatusCodeForAction rStar
         response := getResponseForAction rStar
         redirectURL := getRedirectURLForAction rStar },
       [{ clientIP := "192.0.2.5", hostname := "api.test", requestPath := "/x"
          userAgent := "curl", filterId := rStar.id, matchType := rStar.matchType
          matchValue := rStar.matchValue, actionType := rStar.actionType
          statusCode := getStatusCodeForAction rStar }]) ∧
    ∃ b : Backend,
      (proxyHandler st "api.test" "192.0.2.5:9" "/x" (fun _ => true) (some 200) 3).response
            = ProxyResponse.upstream 200 ∧
         (proxyHandler st "api.test" "192.0.2.5:9" "/x" (fun _ => true) (some 200) 3).requestLogs
            = [{ clientIP := "192.0.2.5:9", hostname := "api.test", requestPath := "/x"
                 backendID := b.id, latencyMS := 3, statusCode := 200
                 isSuccess := true }] :=
  filterRequest_behavior_proxy_decoupled _ _ _ _ _ _ _ _ _ _ _ _ _ _
    (by decide) rfl (by decide) (fun _ => rfl)

/-! ## Retention sweeper (`pruneOldLogs`, main.go lines 199–269)

The database interaction is modelled extensionally: the DNS-rule rows
`(hostname, log_retention_days)` and the request-log rows come in, the
surviving request-log rows come out.  Timestamps are seconds; a retention
of `d` days is `d * 86400` seconds (Go's `AddDate(0, 0, -d)`), and SQL's
`hostname = ?` is false for NULL hostnames. -/

/-- A request-log row as seen by the sweeper: the nullable `hostname`
column and the timestamp. -/
structure LogRow where
  hostname : Option String
  timestamp : Int
deriving Repr, DecidableEq

/-- `pruneOldLogs`: for **each** DNS rule — substituting the default 30
days whenever `log_retention_days ≤ 0` — delete this hostname's rows older
than the cutoff; finally delete rows with NULL or empty hostname older
than 30 days. -/
def pruneOldLogs (rules : List (String × Int)) (logs : List LogRow) (now : Int) :
    List LogRow :=
  let afterRules :=
    rules.foldl
      (fun acc rule =>
        -- use default retention period if not set
        let retentionDays := if rule.2 ≤ 0 then 30 else rule.2
        let cutoff := now - retentionDays * 86400
        acc.filter (fun row =>
          !(row.hostname == some rule.1 && decide (row.timestamp < cutoff))))
      logs
  -- also prune logs with no hostname using the default 30 days
  afterRules.filter (fun row =>
    !((row.hostname == none || row.hostname == some "") &&
      decide (row.timestamp < now - 30 * 86400)))

/-- The deletion predicate exactly as claim C7 states it: per-host deletion
**only** for rules with `log_retention_days > 0`, plus the NULL/empty-host
default of 30 days. -/
def claimPruneStrict (rules : List (String × Int)) (logs : List LogRow) (now : Int) :
    List LogRow :=
  logs.filter (fun row =>
    !(rules.any (fun rule =>
        decide (0 < rule.2) && row.hostname == some rule.1 &&
        decide (row.timestamp < now - rule.2 * 86400)) ||
      ((row.hostname == none || row.hostname == some "") &&
        decide (row.timestamp < now - 30 * 86400))))

/-- The deletion predicate with the amendment the code forces: every rule
prunes its host, with effective retention `log_retention_days` when
positive and 30 days otherwise. -/
def claimPruneAmended (rules : List (String × Int)) (logs : List LogRow) (now : Int) :
    List LogRow :=
  logs.filter (fun row =>
    !(rules.any (fun rule =>
        row.hostname == some rule.1 &&
        decide (row.timestamp < now - (if rule.2 ≤ 0 then 30 else rule.2) * 86400)) ||
      ((row.hostname == none || row.hostname == some "") &&
        decide (row.timestamp < now - 30 * 86400))))

/-- C7 counterexample.  A host rule with `log_retention_days = 0` and one
40-day-old row for that host: the sweeper deletes the row (it applies the
30-day default to that rule), while the claim's deletion predicate — which
skips rules without positive retention — keeps it untouched. -/
theorem pruneOldLogs_zero_retention :
    pruneOldLogs [("h.test", 0)] [{ hostname := some "h.test", timestamp := -40 * 86400 }] 0
      = [] ∧
    claimPruneStrict [("h.test", 0)] [{ hostname := some "h.test", timestamp := -40 * 86400 }] 0
      = [{ hostname := some "h.test", timestamp := -40 * 86400 }] ∧
    pruneOldLogs [("h.test", 0)] [{ hostname := some "h.test", timestamp := -40 * 86400 }] 0
      ≠ claimPruneStrict [("h.test", 0)]
          [{ hostname := some "h.test", timestamp := -40 * 86400 }] 0 := by
  refine ⟨by decide, by decide, by decide⟩

/-- Sequential per-rule deletions compose into one filter over the
disjunction of the per-rule predicates (shared helper). -/
theorem foldl_filter_not_any {α β : Type} (q : β → α → Bool) :
    ∀ (rules : List β) (logs : List α),
      rules.foldl (fun acc rule => acc.filter (fun row => !(q rule row))) logs
        = logs.filter (fun row => !(rules.any (fun rule => q rule row))) := by
  intro rules
  induction rules with
  | nil =>
      intro logs
      simp
  | cons r rs ih =>
      intro logs
      rw [List.foldl_cons, ih, List.filter_filter]
      apply List.filter_congr
      intro row _
      simp [Bool.not_or, Bool.and_comm]

/-- C7 amended.  Each sweeper execution deletes exactly the request-log
rows whose host matches some rule and is older than that rule's effective
retention — `log_retention_days` when positive, the 30-day default
otherwise — together with NULL/empty-host rows older than 30 days; all
other rows survive. -/
theorem pruneOldLogs_amended_exact (rules : List (String × Int)) (logs : List LogRow)
    (now : Int) :
    pruneOldLogs rules logs now = claimPruneAmended rules logs now := by
  unfold pruneOldLogs claimPruneAmended
  rw [foldl_filter_not_any
    (fun rule row =>
      row.hostname == some rule.1 &&
      decide (row.timestamp < now - (if rule.2 ≤ 0 then 30 else rule.2) * 86400))
    rules logs, List.filter_filter]
  apply List.filter_congr
  intro row _
  simp [Bool.not_or, Bool.and_comm]

/-! ## Buffered log sink retry loop (`writeToDatabase`, database logger
lines 127–150)

The batched transaction `batchInsert` either commits wholly or fails;
`ok k` tells whether the `k`-th (0-based) attempt would commit.  The
outcome records how many attempts ran, the back-off sleeps in order, how
many commits happened, and whether the final-failure error was logged. -/

/-- Observable outcome of one `writeToDatabase` call. -/
structure WriteOutcome where
  attempts : Nat
  sleeps : List Int
  commits : Nat
  finalErrorLogged : Bool
deriving Repr, DecidableEq

/-- The retry loop from attempt index `attempt` up to `maxRetries`:
sleep `100 * 2^(attempt-1)` ms before every attempt but the first, stop at
the first successful `batchInsert`, log the final error when the last
attempt fails. -/
def writeFrom (ok : Nat → Bool) (maxRetries : Nat) (attempt : Nat) : WriteOutcome :=
  if h : attempt < maxRetries then
    let sleeps0 : List Int := if 0 < attempt then [100 * 2 ^ (attempt - 1)] else []
    if ok attempt then
      { attempts := 1, sleeps := sleeps0, commits := 1, finalErrorLogged := false }
    else
      let rest := writeFrom ok maxRetries (attempt + 1)
      { attempts := 1 + rest.attempts
        sleeps := sleeps0 ++ rest.sleeps
        commits := rest.commits
        finalErrorLogged := decide (attempt = maxRetries - 1) || rest.finalErrorLogged }
  else
    { attempts := 0, sleeps := [], commits := 0, finalErrorLogged := false }
termination_by maxRetries - attempt

/-- `writeToDatabase` with `maxRetries = 3` and `baseDelay = 100` ms. -/
def writeToDatabase (ok : Nat → Bool) : WriteOutcome := writeFrom ok 3 0

/-- C8.  A log-sink flush attempts the batch write at most 3 times; the
sleeps before the second and third attempts are 100 ms and 200 ms
(`100 · 2^(attempt−1)`); the batch commits at most once (at-most-once
persistence); and exactly when every attempt fails nothing is committed —
the batch is dropped — and the final error is logged. -/
theorem writeToDatabase_retry_policy (ok : Nat → Bool) :
    (writeToDatabase ok).attempts = (if ok 0 then 1 else if ok 1 then 2 else 3) ∧
    (writeToDatabase ok).attempts ≤ 3 ∧
    (writeToDatabase ok).commits = (if ok 0 || ok 1 || ok 2 then 1 else 0) ∧
    (writeToDatabase ok).commits ≤ 1 ∧
    (writeToDatabase ok).sleeps
      = ((List.range (writeToDatabase ok).attempts).tail.map
          fun a => (100 : Int) * 2 ^ (a - 1)) ∧
    (writeToDatabase ok).finalErrorLogged = (!ok 0 && !ok 1 && !ok 2) := by
  by_cases hk0 : ok 0 = true <;> by_cases hk1 : ok 1 = true <;> by_cases hk2 : ok 2 = true <;>
    simp [writeToDatabase, writeFrom, hk0, hk1, hk2, List.range_succ]

end StrongManager
